import Mathlib

/-!
Verification of the content-generation pipeline of `src/app.py`
(`ContentGenerator`): text normalization, concept extraction, assignment
synthesis, quiz-question synthesis (with distractor generation and
deduplication) and the orchestrating `generate_content`.

Strings are shallowly embedded as `List Char`.  Python's process-global
random source is embedded as explicit choice seeds: every call site of
`random.choice` / `random.sample` / `random.shuffle` takes a `Nat` (or a
small record of `Nat`s) selecting the outcome, and theorems quantify over
all seeds, so they hold for every possible random draw.
-/

set_option autoImplicit false
set_option linter.unusedVariables false

abbrev PyStr := List Char

/-- Whitespace as matched by Python's `str.strip()` / regex `\s` on the
ASCII range (Unicode space code points are elided from the embedding). -/
def isPySpace (c : Char) : Bool :=
  c = ' ' || c = '\t' || c = '\n' || c = '\x0b' || c = '\x0c' || c = '\r'

/-- Sentence-splitting punctuation: the character class `[.!?]`. -/
def isSentPunct (c : Char) : Bool :=
  c = '.' || c = '!' || c = '?'

/-- The character set of `str.strip('.,!?')` in `create_multiple_choice_question`. -/
def isAnsPunct (c : Char) : Bool :=
  c = '.' || c = ',' || c = '!' || c = '?'

/-- Word characters of the regex `\w` (ASCII range), used for the `\b`
boundaries of `\b[A-Za-z]+\b`. -/
def isWordChar (c : Char) : Bool :=
  c.isAlpha || c.isDigit || c = '_'

/-- Remove leading characters satisfying `p` (one side of Python `strip`). -/
def dropLead (p : Char → Bool) (l : PyStr) : PyStr := l.dropWhile p

/-- Remove trailing characters satisfying `p` (the other side of `strip`). -/
def dropTrail (p : Char → Bool) (l : PyStr) : PyStr := (l.reverse.dropWhile p).reverse

/-- Python `str.strip(chars)`: drop the characters satisfying `p` from both ends. -/
def pyStripP (p : Char → Bool) (l : PyStr) : PyStr := dropTrail p (dropLead p l)

/-- Python `str.strip()` with no argument: strip whitespace from both ends. -/
def pyStrip (l : PyStr) : PyStr := pyStripP isPySpace l

/-- Replace every maximal run of whitespace by a single `' '`, implementing
`re.sub(r'\s+', ' ', ·)`.  The flag records whether we are inside a run
whose single replacement space has already been emitted. -/
def collapseAux : Bool → PyStr → PyStr
  | _, [] => []
  | inRun, c :: rest =>
    if isPySpace c then
      (if inRun then collapseAux true rest else ' ' :: collapseAux true rest)
    else
      c :: collapseAux false rest

/-- `ContentGenerator.clean_text`: `re.sub(r'\s+', ' ', text.strip())`. -/
def clean_text (text : PyStr) : PyStr := collapseAux false (pyStrip text)

/-- No two consecutive characters are both whitespace. -/
def noAdjWS : PyStr → Bool
  | [] => true
  | [_] => true
  | a :: b :: rest => !(isPySpace a && isPySpace b) && noAdjWS (b :: rest)

/-- Head character, if any, does not satisfy the whitespace predicate. -/
def headOK (l : PyStr) : Prop := ∀ c, l.head? = some c → isPySpace c = false

/-- Last character, if any, does not satisfy the whitespace predicate. -/
def lastOK (l : PyStr) : Prop := ∀ c, l.getLast? = some c → isPySpace c = false

/-- Every whitespace character of the list is a plain space. -/
def spacesOK (l : PyStr) : Prop := ∀ c ∈ l, isPySpace c = true → c = ' '

/-- Splitter implementing `re.split(r'[.!?]+', ·)`-style splitting: each
maximal run of characters satisfying `p` separates two segments, and empty
segments at the ends (or between nothing) are kept, as Python does.  The
flag records whether the previous character was part of a separator run. -/
def splitRunsAux (p : Char → Bool) : Bool → PyStr → PyStr → List PyStr
  | _, cur, [] => [cur.reverse]
  | inSep, cur, c :: rest =>
    if p c then
      if inSep then splitRunsAux p true [] rest
      else cur.reverse :: splitRunsAux p true [] rest
    else splitRunsAux p false (c :: cur) rest

/-- Python `re.split` on a one-or-more character-class pattern. -/
def pySplitRe (p : Char → Bool) (s : PyStr) : List PyStr := splitRunsAux p false [] s

/-- Maximal runs of characters satisfying `p`; runs of other characters are
discarded (no empty segments). -/
def runsOfAux (p : Char → Bool) : PyStr → PyStr → List PyStr
  | cur, [] => if cur.isEmpty then [] else [cur.reverse]
  | cur, c :: rest =>
    if p c then runsOfAux p (c :: cur) rest
    else if cur.isEmpty then runsOfAux p [] rest
    else cur.reverse :: runsOfAux p [] rest

/-- All maximal runs of characters satisfying `p` in the string. -/
def runsOf (p : Char → Bool) (s : PyStr) : List PyStr := runsOfAux p [] s

/-- Python `re.findall(r'\b[A-Za-z]+\b', s)`: maximal runs of word
characters that consist purely of letters (a letter run adjacent to a
digit or underscore has no word boundary and is not matched). -/
def findWords (s : PyStr) : List PyStr :=
  (runsOf isWordChar s).filter (fun w => w.all (fun c => c.isAlpha))

/-- Python `str.split()` with no argument: maximal runs of non-whitespace. -/
def pySplitWS (s : PyStr) : List PyStr := runsOf (fun c => !isPySpace c) s

/-- Python `str.lower()` (ASCII range). -/
def lowerL (w : PyStr) : PyStr := w.map Char.toLower

/-- One step of `word_freq[k] = word_freq.get(k, 0) + 1` on an ordered
association list, preserving first-insertion order as a Python dict does. -/
def bumpKey (k : PyStr) : List (PyStr × Nat) → List (PyStr × Nat)
  | [] => [(k, 1)]
  | (k', n) :: rest => if k' = k then (k', n + 1) :: rest else (k', n) :: bumpKey k rest

/-- The stoplist excluded from capitalized concepts in `extract_key_concepts`. -/
def conceptStop : List PyStr :=
  ["the".data, "this".data, "that".data, "they".data, "there".data]

/-- Python `word[0].isupper()` (`false` for the empty string, which cannot
occur for the tokens it is applied to). -/
def isUpperFirst : PyStr → Bool
  | [] => false
  | c :: _ => c.isUpper

/-- First-occurrence deduplication with an accumulator of already-seen
elements.  Python's `list(set(...))` iterates the set in an unspecified
order; it is modelled here as first-occurrence order.  Every property
proved about it (length bound, membership) is order-insensitive. -/
def dedupAux {α : Type} [DecidableEq α] (seen : List α) : List α → List α
  | [] => []
  | x :: xs => if x ∈ seen then dedupAux seen xs else x :: dedupAux (x :: seen) xs

/-- Python `list(set(l))`, modulo iteration order (see `dedupAux`). -/
def pySetList {α : Type} [DecidableEq α] (l : List α) : List α := dedupAux [] l

/-- `ContentGenerator.extract_key_concepts`.  The Python loop interleaves,
token by token, the frequency bump and the capitalized-concept append;
the two accumulations are independent and are computed here as two passes
over the same token stream in the same order. -/
def extract_key_concepts (text : PyStr) : List PyStr :=
  let sentences := pySplitRe isSentPunct text
  let toks := (sentences.flatMap findWords).filter (fun w => 3 < w.length)
  let word_freq := toks.foldl (fun m w => bumpKey (lowerL w) m) []
  let concepts := toks.filter (fun w => isUpperFirst w && !(conceptStop.contains (lowerL w)))
  let frequent_words := (word_freq.filter (fun kv => 1 < kv.2 && 4 < kv.1.length)).map Prod.fst
  (pySetList (concepts ++ frequent_words.take 5)).take 10

/-- The nine `essay_starters` of `ContentGenerator.__init__`. -/
def essay_starters : List PyStr :=
  ["Analyze and discuss".data,
   "Compare and contrast".data,
   "Evaluate the significance of".data,
   "Explain the relationship between".data,
   "Critically examine".data,
   "Describe the impact of".data,
   "What are the main factors that contribute to".data,
   "How does".data,
   "Why is it important to understand".data]

/-- The eight `mc_starters` of `ContentGenerator.__init__`. -/
def mc_starters : List PyStr :=
  ["What is".data,
   "Which of the following".data,
   "What best describes".data,
   "According to the text, what".data,
   "Which statement is true about".data,
   "What can be inferred about".data,
   "The main idea of".data,
   "What is the primary purpose of".data]

/-- Python `random.choice(l)` with the draw given by an explicit seed: any
seed selects a valid element, and every element is selected by some seed. -/
def pyChoice {α : Type} (l : List α) (r : Nat) (d : α) : α := l.getD (r % l.length) d

/-- Python `random.sample(l, 2)` with the draw given by two seeds: the
first seed picks a position, the second picks one of the remaining
positions, so the two positions are always distinct (for `2 ≤ l.length`)
and every ordered pair of distinct positions is reachable. -/
def pySample2 {α : Type} (l : List α) (r1 r2 : Nat) (d : α) : α × α :=
  let i := r1 % l.length
  let j0 := r2 % (l.length - 1)
  let j := if j0 < i then j0 else j0 + 1
  (l.getD i d, l.getD j d)

/-- The interpolated template of assignment 1 in `generate_assignments`. -/
def asg1Template (starter concept : PyStr) : PyStr :=
  starter ++ " ".data ++ lowerL concept ++
    " as discussed in the provided material. Support your analysis with specific examples and explain its broader implications.".data

/-- The fixed assignment-1 fallback sentence. -/
def asg1Fallback : PyStr :=
  "Analyze the main themes presented in the provided text and discuss their significance with supporting examples.".data

/-- The interpolated compare-and-contrast template of assignment 2. -/
def asg2Template (c1 c2 : PyStr) : PyStr :=
  "Compare and contrast ".data ++ lowerL c1 ++ " and ".data ++ lowerL c2 ++
    ". Discuss how these concepts relate to each other and their importance in the overall context.".data

/-- The fixed assignment-2 fallback sentence. -/
def asg2Fallback : PyStr :=
  "Evaluate the effectiveness of the arguments presented in the text. What evidence supports the main points, and what questions remain unanswered?".data

/-- Random draws consumed by one call of `generate_assignments`. -/
structure AsgRand where
  c1 : Nat
  s1 : Nat
  p1 : Nat
  p2 : Nat

/-- `ContentGenerator.generate_assignments` (the `text` argument is unused
by the source as well). -/
def generate_assignments (text : PyStr) (concepts : List PyStr) (rnd : AsgRand) : List PyStr :=
  let assignment1 :=
    if concepts ≠ [] then
      asg1Template (pyChoice essay_starters rnd.s1 []) (pyChoice concepts rnd.c1 [])
    else asg1Fallback
  let assignment2 :=
    if 2 ≤ concepts.length then
      let pair := pySample2 concepts rnd.p1 rnd.p2 []
      asg2Template pair.1 pair.2
    else asg2Fallback
  [assignment1, assignment2]

/-- `ContentGenerator.generate_distractors`. -/
def generate_distractors (correct_answer : PyStr) (concepts : List PyStr) : List PyStr :=
  let other_concepts := concepts.filter (fun c => lowerL c ≠ lowerL correct_answer)
  let distractors := other_concepts.take 2
  let generic_distractors :=
    ["Not ".data ++ lowerL correct_answer,
     "Opposite of ".data ++ lowerL correct_answer,
     "None of the above".data]
  (distractors ++ generic_distractors).take 3

/-- The blank marker substituted for the correct answer. -/
def blankMarker : PyStr := "______".data

/-- Does the first list begin the second (`begWith pat s` means `pat` is a
leading segment of `s`)? -/
def begWith : PyStr → PyStr → Bool
  | [], _ => true
  | _ :: _, [] => false
  | a :: as, b :: bs => a = b && begWith as bs

/-- Python `pat in s` for strings: `pat` occurs contiguously in `s`. -/
def hasSub (pat : PyStr) : PyStr → Bool
  | [] => begWith pat []
  | c :: rest => begWith pat (c :: rest) || hasSub pat rest

/-- `pat` occurs contiguously inside `s`. -/
def SubSeg (pat s : PyStr) : Prop := ∃ a b, s = a ++ pat ++ b

/-- Scanner of Python `str.replace` for a non-empty pattern: left-to-right,
replacing every non-overlapping occurrence.  The fuel is instantiated
with the length of the string, which bounds the recursion depth. -/
def replFuel (old new : PyStr) : Nat → PyStr → PyStr
  | 0, s => s
  | _ + 1, [] => []
  | fuel + 1, c :: rest =>
    if begWith old (c :: rest) then new ++ replFuel old new fuel ((c :: rest).drop old.length)
    else c :: replFuel old new fuel rest

/-- Python `s.replace(old, new)`: replaces every non-overlapping occurrence
left to right; an empty `old` inserts `new` at every position. -/
def pyReplace (s old new : PyStr) : PyStr :=
  if old = [] then new ++ s.flatMap (fun c => c :: new)
  else replFuel old new s.length s

/-- Modelled from the spec: replacement of only the first textual
occurrence (§4.4.1 step 5 as the spec words it), for comparison with the
source's replace-all `pyReplace`. -/
def replFirstFuel (old new : PyStr) : Nat → PyStr → PyStr
  | 0, s => s
  | _ + 1, [] => []
  | fuel + 1, c :: rest =>
    if begWith old (c :: rest) then new ++ (c :: rest).drop old.length
    else c :: replFirstFuel old new fuel rest

/-- Modelled from the spec: replace only the first occurrence of `old`. -/
def specReplaceFirst (s old new : PyStr) : PyStr :=
  if old = [] then new ++ s else replFirstFuel old new s.length s

/-- The `QuizQuestion` record. -/
structure Question where
  question : PyStr
  options : List PyStr
  correct_answer : Char
  correct_text : PyStr
deriving DecidableEq

/-- All ways to insert an element into a list. -/
def insertsOf {α : Type} (a : α) : List α → List (List α)
  | [] => [[a]]
  | b :: bs => (a :: b :: bs) :: (insertsOf a bs).map (fun l => b :: l)

/-- All permutations of a list (structural recursion, kernel reducible). -/
def permsOf {α : Type} : List α → List (List α)
  | [] => [[]]
  | a :: as => (permsOf as).flatMap (insertsOf a)

/-- Python `random.shuffle(l)` with the draw given by a seed: the seed
selects one of the permutations of `l`; every permutation is reachable. -/
def pyShuffle {α : Type} (l : List α) (r : Nat) : List α :=
  let ps := permsOf l
  ps.getD (r % ps.length) l

/-- Python `list.index(a)`: index of the first occurrence (callers below
establish membership, matching Python where `.index` would raise). -/
def idxOfL {α : Type} [DecidableEq α] (a : α) : List α → Nat
  | [] => 0
  | x :: xs => if x = a then 0 else idxOfL a xs + 1

/-- The connective stoplist excluded from answer candidates. -/
def mcConnectives : List PyStr :=
  ["through".data, "because".data, "however".data, "therefore".data, "although".data]

/-- The alternative question format used when the blank marker is absent. -/
def mcFallbackText (starter sentence : PyStr) : PyStr :=
  starter ++ " mentioned in the following context: '".data ++ sentence.take 50 ++ "...'?".data

/-- Random draws consumed by one call of `create_multiple_choice_question`. -/
structure McqRand where
  ans : Nat
  st : Nat
  sh : Nat

/-- `ContentGenerator.create_multiple_choice_question`. -/
def create_multiple_choice_question (sentence0 : PyStr) (concepts : List PyStr)
    (rnd : McqRand) : Option Question :=
  let sentence := pyStrip sentence0
  if sentence = [] then none
  else
    let words := pySplitWS sentence
    let answer_candidates :=
      words.filter (fun w => 4 < w.length && !(mcConnectives.contains (lowerL w)))
    if answer_candidates = [] then none
    else
      let correct_answer := pyStripP isAnsPunct (pyChoice answer_candidates rnd.ans [])
      let qt0 := pyReplace sentence correct_answer blankMarker
      let question_text :=
        if !(hasSub blankMarker qt0) then
          mcFallbackText (pyChoice mc_starters rnd.st []) sentence
        else qt0
      let distractors := generate_distractors correct_answer concepts
      let options := pyShuffle (correct_answer :: distractors) rnd.sh
      let correct_index := idxOfL correct_answer options
      some { question := question_text, options := options,
             correct_answer := Char.ofNat (65 + correct_index),
             correct_text := correct_answer }

/-- `ContentGenerator.create_generic_question` (its `index` argument is
unused by the source as well). -/
def create_generic_question (concepts : List PyStr) (r : Nat) (index : Nat) : Question :=
  let qo : PyStr × List PyStr :=
    if concepts ≠ [] then
      ("What is the significance of ".data ++ lowerL (pyChoice concepts r []) ++
         " in the provided material?".data,
       ["It is a central theme".data,
        "It is mentioned briefly".data,
        "It is not relevant".data,
        "It contradicts the main argument".data])
    else
      ("Based on the provided material, which statement is most accurate?".data,
       ["The content presents a clear argument".data,
        "The content lacks supporting evidence".data,
        "The content is purely descriptive".data,
        "The content is contradictory".data])
  { question := qo.1, options := qo.2, correct_answer := 'A',
    correct_text := qo.2.getD 0 [] }

/-- Random draws consumed by one attempt of the quiz loop. -/
structure AttemptRand where
  sent : Nat
  mcq : McqRand

/-- The `while len(questions) < 3 and attempts < max_attempts` loop of
`generate_quiz_questions`; the fuel is the remaining attempt budget. -/
def quizLoop (sentences concepts : List PyStr) (r : Nat → AttemptRand) :
    Nat → List Question → List Question
  | 0, qs => qs
  | fuel + 1, qs =>
    if qs.length < 3 then
      let qs' :=
        if sentences ≠ [] then
          match create_multiple_choice_question (pyChoice sentences (r fuel).sent [])
              concepts (r fuel).mcq with
          | some q => if q ∈ qs then qs else qs ++ [q]
          | none => qs
        else qs
      quizLoop sentences concepts r fuel qs'
    else qs

/-- The `while len(questions) < 3` fill loop of `generate_quiz_questions`.
Each iteration appends exactly one question, so the source loop runs at
most three times; fuel `3` makes the recursion structural without
changing behaviour for any input. -/
def fillGeneric (concepts : List PyStr) (g : Nat → Nat) :
    Nat → List Question → List Question
  | 0, qs => qs
  | fuel + 1, qs =>
    if qs.length < 3 then
      fillGeneric concepts g fuel (qs ++ [create_generic_question concepts (g qs.length) qs.length])
    else qs

/-- `ContentGenerator.generate_quiz_questions`. -/
def generate_quiz_questions (text : PyStr) (concepts : List PyStr)
    (r : Nat → AttemptRand) (g : Nat → Nat) : List Question :=
  let sentences := ((pySplitRe isSentPunct text).map pyStrip).filter (fun s => 20 < s.length)
  let qs := quizLoop sentences concepts r (sentences.length * 2) []
  fillGeneric concepts g 3 qs

/-- The `GenerationResult` returned by `generate_content`. -/
structure GenerationResult where
  assignments : List PyStr
  quiz_questions : List Question
  concepts_found : List PyStr
deriving DecidableEq

/-- Random draws consumed by one call of `generate_content`. -/
structure GenRand where
  asg : AsgRand
  att : Nat → AttemptRand
  gen : Nat → Nat

/-- `ContentGenerator.generate_content`, the orchestrator. -/
def generate_content (input_text : PyStr) (rnd : GenRand) : GenerationResult :=
  let text := clean_text input_text
  let concepts := extract_key_concepts text
  let assignments := generate_assignments text concepts rnd.asg
  let quiz_questions := generate_quiz_questions text concepts rnd.att rnd.gen
  { assignments := assignments, quiz_questions := quiz_questions,
    concepts_found := concepts }

/-- The record invariant of §3: four options, a letter `A`–`D`, and the
option at the letter's position (`A` = 0, …, `D` = 3) equal to
`correct_text`. -/
def quizInv (q : Question) : Prop :=
  q.options.length = 4 ∧
  q.correct_answer ∈ (['A', 'B', 'C', 'D'] : List Char) ∧
  q.options.getD (q.correct_answer.toNat - 65) [] = q.correct_text

/-- The generic fallback question produced when the concept list is empty. -/
def emptyGenericQuestion : Question :=
  { question := "Based on the provided material, which statement is most accurate?".data,
    options := ["The content presents a clear argument".data,
                "The content lacks supporting evidence".data,
                "The content is purely descriptive".data,
                "The content is contradictory".data],
    correct_answer := 'A',
    correct_text := "The content presents a clear argument".data }

/-- The full result of `generate_content` on empty (or whitespace-only)
input: the two fixed fallback assignments, three empty-concept generic
questions, and no concepts. -/
def emptyFallbackResult : GenerationResult :=
  { assignments := [asg1Fallback, asg2Fallback],
    quiz_questions := [emptyGenericQuestion, emptyGenericQuestion, emptyGenericQuestion],
    concepts_found := [] }

lemma dropWhile_head_not (p : Char → Bool) :
    ∀ (l : PyStr) (c : Char), (l.dropWhile p).head? = some c → p c = false := by
  intro l
  induction l with
  | nil => intro c h; simp [List.dropWhile] at h
  | cons a l ih =>
    intro c h
    by_cases hp : p a
    · rw [List.dropWhile_cons_of_pos hp] at h
      exact ih c h
    · rw [List.dropWhile_cons_of_neg hp] at h
      simp at h
      rw [← h]
      exact Bool.of_not_eq_true hp

lemma dropWhile_eq_self_of_headOK (p : Char → Bool) (l : PyStr)
    (h : ∀ c, l.head? = some c → p c = false) : l.dropWhile p = l := by
  cases l with
  | nil => rfl
  | cons a l =>
    have ha : p a = false := h a rfl
    simp [List.dropWhile, ha]

lemma dropTrail_append (p : Char → Bool) (l : PyStr) :
    l = dropTrail p l ++ (l.reverse.takeWhile p).reverse := by
  have h := List.takeWhile_append_dropWhile (p := p) (l := l.reverse)
  have h2 : l.reverse.reverse =
      (l.reverse.takeWhile p ++ l.reverse.dropWhile p).reverse := by rw [h]
  rw [List.reverse_reverse, List.reverse_append] at h2
  exact h2

lemma headOK_dropTrail (p : Char → Bool) (l : PyStr)
    (h : ∀ c, l.head? = some c → p c = false) :
    ∀ c, (dropTrail p l).head? = some c → p c = false := by
  intro c hc
  cases hd : dropTrail p l with
  | nil => rw [hd] at hc; simp at hc
  | cons a rest =>
    rw [hd] at hc
    simp at hc
    have hl := dropTrail_append p l
    rw [hd] at hl
    apply h
    rw [hl]
    simp [hc]

lemma lastOK_dropTrail (p : Char → Bool) (l : PyStr) :
    ∀ c, (dropTrail p l).getLast? = some c → p c = false := by
  intro c hc
  unfold dropTrail at hc
  rw [List.getLast?_reverse] at hc
  exact dropWhile_head_not p _ c hc

lemma headOK_pyStrip (l : PyStr) : headOK (pyStrip l) := by
  intro c hc
  exact headOK_dropTrail isPySpace (dropLead isPySpace l)
    (dropWhile_head_not isPySpace l) c hc

lemma lastOK_pyStrip (l : PyStr) : lastOK (pyStrip l) := by
  intro c hc
  exact lastOK_dropTrail isPySpace (dropLead isPySpace l) c hc

lemma pyStrip_eq_self (l : PyStr) (h1 : headOK l) (h2 : lastOK l) :
    pyStrip l = l := by
  unfold pyStrip pyStripP dropLead dropTrail
  rw [dropWhile_eq_self_of_headOK isPySpace l h1]
  rw [dropWhile_eq_self_of_headOK isPySpace l.reverse]
  · exact List.reverse_reverse l
  · intro c hc
    rw [List.head?_reverse] at hc
    exact h2 c hc

lemma collapseAux_true_head :
    ∀ (l : PyStr) (c : Char), (collapseAux true l).head? = some c → isPySpace c = false := by
  intro l
  induction l with
  | nil => intro c h; simp [collapseAux] at h
  | cons a rest ih =>
    intro c h
    by_cases ha : isPySpace a
    · rw [show collapseAux true (a :: rest) = collapseAux true rest by
        simp [collapseAux, ha]] at h
      exact ih c h
    · rw [show collapseAux true (a :: rest) = a :: collapseAux false rest by
        simp [collapseAux, ha]] at h
      simp at h
      rw [← h]
      exact Bool.of_not_eq_true ha

lemma noAdjWS_cons (a : Char) (l : PyStr) :
    noAdjWS (a :: l) = true ↔
      (∀ d, l.head? = some d → (isPySpace a && isPySpace d) = false) ∧ noAdjWS l = true := by
  cases l with
  | nil => simp [noAdjWS]
  | cons b rest =>
    simp only [noAdjWS, List.head?_cons, Bool.and_eq_true, Bool.not_eq_true']
    constructor
    · intro h
      refine ⟨?_, h.2⟩
      intro d hd
      cases hd
      exact h.1
    · intro h
      exact ⟨h.1 b rfl, h.2⟩

lemma noAdjWS_collapseAux : ∀ (l : PyStr) (b : Bool), noAdjWS (collapseAux b l) = true := by
  intro l
  induction l with
  | nil => intro b; simp [collapseAux, noAdjWS]
  | cons a rest ih =>
    intro b
    by_cases ha : isPySpace a
    · cases b with
      | true =>
        rw [show collapseAux true (a :: rest) = collapseAux true rest by
          simp [collapseAux, ha]]
        exact ih true
      | false =>
        rw [show collapseAux false (a :: rest) = ' ' :: collapseAux true rest by
          simp [collapseAux, ha]]
        rw [noAdjWS_cons]
        refine ⟨?_, ih true⟩
        intro d hd
        rw [collapseAux_true_head rest d hd]
        simp
    · rw [show collapseAux b (a :: rest) = a :: collapseAux false rest by
        cases b <;> simp [collapseAux, ha]]
      rw [noAdjWS_cons]
      refine ⟨?_, ih false⟩
      intro d _
      rw [Bool.of_not_eq_true ha]
      simp

lemma headOK_collapseAux (l : PyStr) (h : headOK l) : headOK (collapseAux false l) := by
  cases l with
  | nil => intro c hc; simp [collapseAux] at hc
  | cons a rest =>
    have ha : isPySpace a = false := h a rfl
    intro c hc
    rw [show collapseAux false (a :: rest) = a :: collapseAux false rest by
      simp [collapseAux, ha]] at hc
    simp at hc
    rw [← hc]
    exact ha

lemma getLast?_cons_cons (a b : Char) (l : PyStr) :
    (a :: b :: l).getLast? = (b :: l).getLast? := by
  simp [List.getLast?]

lemma lastOK_collapseAux :
    ∀ (l : PyStr) (b : Bool), l ≠ [] → lastOK l →
      collapseAux b l ≠ [] ∧ lastOK (collapseAux b l) := by
  intro l
  induction l with
  | nil => intro b h; exact absurd rfl h
  | cons a rest ih =>
    intro b _ hlast
    cases rest with
    | nil =>
      have ha : isPySpace a = false := hlast a rfl
      rw [show collapseAux b [a] = [a] by cases b <;> simp [collapseAux, ha]]
      refine ⟨by simp, ?_⟩
      intro c hc
      simp at hc
      rw [← hc]
      exact ha
    | cons r rs =>
      have hrest : lastOK (r :: rs) := by
        intro c hc
        apply hlast
        rw [getLast?_cons_cons]
        exact hc
      by_cases ha : isPySpace a
      · cases b with
        | true =>
          rw [show collapseAux true (a :: r :: rs) = collapseAux true (r :: rs) by
            simp [collapseAux, ha]]
          exact ih true (by simp) hrest
        | false =>
          rw [show collapseAux false (a :: r :: rs) = ' ' :: collapseAux true (r :: rs) by
            simp [collapseAux, ha]]
          obtain ⟨hne, hOK⟩ := ih true (by simp) hrest
          refine ⟨by simp, ?_⟩
          intro c hc
          cases hX : collapseAux true (r :: rs) with
          | nil => exact absurd hX hne
          | cons x xs =>
            rw [hX] at hc
            rw [getLast?_cons_cons] at hc
            apply hOK
            rw [hX]
            exact hc
      · rw [show collapseAux b (a :: r :: rs) = a :: collapseAux false (r :: rs) by
          cases b <;> simp [collapseAux, ha]]
        obtain ⟨hne, hOK⟩ := ih false (by simp) hrest
        refine ⟨by simp, ?_⟩
        intro c hc
        cases hX : collapseAux false (r :: rs) with
        | nil => exact absurd hX hne
        | cons x xs =>
          refine hOK c ?_
          rw [hX] at hc ⊢
          rw [getLast?_cons_cons] at hc
          exact hc

lemma spacesOK_collapseAux :
    ∀ (l : PyStr) (b : Bool), spacesOK (collapseAux b l) := by
  intro l
  induction l with
  | nil => intro b c hc; simp [collapseAux] at hc
  | cons a rest ih =>
    intro b c hc hsp
    by_cases ha : isPySpace a
    · cases b with
      | true =>
        rw [show collapseAux true (a :: rest) = collapseAux true rest by
          simp [collapseAux, ha]] at hc
        exact ih true c hc hsp
      | false =>
        rw [show collapseAux false (a :: rest) = ' ' :: collapseAux true rest by
          simp [collapseAux, ha]] at hc
        simp at hc
        cases hc with
        | inl h => exact h
        | inr h => exact ih true c h hsp
    · rw [show collapseAux b (a :: rest) = a :: collapseAux false rest by
        cases b <;> simp [collapseAux, ha]] at hc
      simp at hc
      cases hc with
      | inl h =>
        rw [h] at hsp
        rw [Bool.of_not_eq_true ha] at hsp
        cases hsp
      | inr h => exact ih false c h hsp

lemma collapseAux_eq_self (l : PyStr) (hsp : spacesOK l) (hadj : noAdjWS l = true) :
    collapseAux false l = l := by
  induction l with
  | nil => rfl
  | cons a rest ih =>
    have hsp' : spacesOK rest := fun c hc h => hsp c (List.mem_cons_of_mem a hc) h
    have hadj' : noAdjWS rest = true := ((noAdjWS_cons a rest).1 hadj).2
    by_cases ha : isPySpace a
    · have haSp : a = ' ' := hsp a (List.mem_cons_self a rest) ha
      rw [show collapseAux false (a :: rest) = ' ' :: collapseAux true rest by
        simp [collapseAux, ha]]
      rw [← haSp]
      cases rest with
      | nil => simp [collapseAux]
      | cons r rs =>
        have hr : isPySpace r = false := by
          have := ((noAdjWS_cons a (r :: rs)).1 hadj).1 r rfl
          rw [ha] at this
          simpa using this
        rw [show collapseAux true (r :: rs) = r :: collapseAux false rs by
          simp [collapseAux, hr]]
        have h2 : collapseAux false (r :: rs) = r :: rs := ih hsp' hadj'
        rw [show collapseAux false (r :: rs) = r :: collapseAux false rs by
          simp [collapseAux, hr]] at h2
        rw [List.cons.injEq] at h2
        rw [h2.2]
    · rw [show collapseAux false (a :: rest) = a :: collapseAux false rest by
        simp [collapseAux, ha]]
      rw [ih hsp' hadj']

/-- C7: for every input, `clean_text` produces a string with no two
consecutive whitespace characters and no leading or trailing whitespace
(stated as `pyStrip` being the identity on it), and `clean_text` is
idempotent. -/
theorem c7_clean_text_normalized (s : PyStr) :
    noAdjWS (clean_text s) = true ∧
    pyStrip (clean_text s) = clean_text s ∧
    clean_text (clean_text s) = clean_text s := by
  have hadj : noAdjWS (clean_text s) = true := noAdjWS_collapseAux (pyStrip s) false
  have hhead : headOK (clean_text s) :=
    headOK_collapseAux (pyStrip s) (headOK_pyStrip s)
  have hlast : lastOK (clean_text s) := by
    cases hstr : pyStrip s with
    | nil =>
      intro c hc
      unfold clean_text at hc
      rw [hstr] at hc
      simp [collapseAux] at hc
    | cons a rest =>
      have h1 : lastOK (pyStrip s) := lastOK_pyStrip s
      rw [hstr] at h1
      have := lastOK_collapseAux (a :: rest) false (by simp) h1
      unfold clean_text
      rw [hstr]
      exact this.2
  have hfix : pyStrip (clean_text s) = clean_text s :=
    pyStrip_eq_self (clean_text s) hhead hlast
  refine ⟨hadj, hfix, ?_⟩
  show collapseAux false (pyStrip (clean_text s)) = clean_text s
  rw [hfix]
  exact collapseAux_eq_self (clean_text s)
    (spacesOK_collapseAux (pyStrip s) false) hadj

lemma getD_mem_of_lt {α : Type} (l : List α) (n : Nat) (d : α) (h : n < l.length) :
    l.getD n d ∈ l := by
  rw [List.getD_eq_getElem l d h]
  exact List.getElem_mem h

lemma pyChoice_mem {α : Type} (l : List α) (r : Nat) (d : α) (h : l ≠ []) :
    pyChoice l r d ∈ l := by
  unfold pyChoice
  exact getD_mem_of_lt l _ d (Nat.mod_lt r (List.length_pos.2 h))

lemma idxOfL_lt {α : Type} [DecidableEq α] (a : α) :
    ∀ (l : List α), a ∈ l → idxOfL a l < l.length := by
  intro l
  induction l with
  | nil => intro h; cases h
  | cons x xs ih =>
    intro h
    by_cases hx : x = a
    · simp [idxOfL, hx]
    · have ha : a ∈ xs := by
        cases List.mem_cons.1 h with
        | inl he => exact absurd he.symm hx
        | inr hm => exact hm
      rw [idxOfL, if_neg hx, List.length_cons]
      exact Nat.add_lt_add_right (ih ha) 1

lemma getD_idxOfL {α : Type} [DecidableEq α] (a : α) (d : α) :
    ∀ (l : List α), a ∈ l → l.getD (idxOfL a l) d = a := by
  intro l
  induction l with
  | nil => intro h; cases h
  | cons x xs ih =>
    intro h
    by_cases hx : x = a
    · simp [idxOfL, hx]
    · have ha : a ∈ xs := by
        cases List.mem_cons.1 h with
        | inl he => exact absurd he.symm hx
        | inr hm => exact hm
      rw [idxOfL, if_neg hx, List.getD_cons_succ]
      exact ih ha

lemma insertsOf_perm {α : Type} (a : α) :
    ∀ (l p : List α), p ∈ insertsOf a l → List.Perm p (a :: l) := by
  intro l
  induction l with
  | nil =>
    intro p hp
    simp [insertsOf] at hp
    rw [hp]
  | cons b bs ih =>
    intro p hp
    simp only [insertsOf, List.mem_cons, List.mem_map] at hp
    cases hp with
    | inl he => rw [he]
    | inr hm =>
      obtain ⟨q, hq, hbq⟩ := hm
      rw [← hbq]
      exact List.Perm.trans (List.Perm.cons b (ih q hq)) (List.Perm.swap a b bs)

lemma permsOf_perm {α : Type} :
    ∀ (l p : List α), p ∈ permsOf l → List.Perm p l := by
  intro l
  induction l with
  | nil =>
    intro p hp
    simp [permsOf] at hp
    rw [hp]
  | cons a as ih =>
    intro p hp
    simp only [permsOf, List.mem_flatMap] at hp
    obtain ⟨q, hq, hpq⟩ := hp
    exact List.Perm.trans (insertsOf_perm a q p hpq) (List.Perm.cons a (ih q hq))

lemma permsOf_ne_nil {α : Type} : ∀ (l : List α), permsOf l ≠ [] := by
  intro l
  induction l with
  | nil => simp [permsOf]
  | cons a as ih =>
    cases hq : permsOf as with
    | nil => exact absurd hq ih
    | cons q qs =>
      rw [permsOf, hq, List.flatMap_cons]
      intro h
      rw [List.append_eq_nil] at h
      cases q <;> simp [insertsOf] at h

lemma pyShuffle_perm {α : Type} (l : List α) (r : Nat) : List.Perm (pyShuffle l r) l := by
  unfold pyShuffle
  exact permsOf_perm l _
    (getD_mem_of_lt _ _ l (Nat.mod_lt r (List.length_pos.2 (permsOf_ne_nil l))))

lemma length_generate_distractors (ca : PyStr) (cs : List PyStr) :
    (generate_distractors ca cs).length = 3 := by
  unfold generate_distractors
  rw [List.length_take, List.length_append]
  simp

lemma charIdx_ofNat (i : Nat) (h : i < 4) : (Char.ofNat (65 + i)).toNat - 65 = i := by
  interval_cases i <;> decide

lemma charMem_ofNat (i : Nat) (h : i < 4) :
    Char.ofNat (65 + i) ∈ (['A', 'B', 'C', 'D'] : List Char) := by
  interval_cases i <;> decide

lemma mcq_quizInv (s : PyStr) (c : List PyStr) (r : McqRand) (q : Question)
    (h : create_multiple_choice_question s c r = some q) : quizInv q := by
  simp only [create_multiple_choice_question] at h
  split at h
  · cases h
  · split at h
    · cases h
    · rw [Option.some.injEq] at h
      rw [← h]
      set ca := pyStripP isAnsPunct
        (pyChoice ((pySplitWS (pyStrip s)).filter
          (fun w => 4 < w.length && !(mcConnectives.contains (lowerL w)))) r.ans []) with hca
      set opts := pyShuffle (ca :: generate_distractors ca c) r.sh with hopts
      have hperm : List.Perm opts (ca :: generate_distractors ca c) := pyShuffle_perm _ r.sh
      have hlen : opts.length = 4 := by
        rw [hperm.length_eq, List.length_cons, length_generate_distractors]
      have hmem : ca ∈ opts := hperm.mem_iff.2 (List.mem_cons_self ca _)
      have hidx : idxOfL ca opts < 4 := by
        rw [← hlen]
        exact idxOfL_lt ca opts hmem
      refine ⟨hlen, charMem_ofNat _ hidx, ?_⟩
      rw [charIdx_ofNat _ hidx]
      exact getD_idxOfL ca [] opts hmem

lemma generic_quizInv (c : List PyStr) (r i : Nat) :
    quizInv (create_generic_question c r i) := by
  cases c with
  | nil => exact ⟨rfl, (by decide : ('A' : Char) ∈ ['A', 'B', 'C', 'D']), rfl⟩
  | cons x xs => exact ⟨rfl, (by decide : ('A' : Char) ∈ ['A', 'B', 'C', 'D']), rfl⟩

lemma quizLoop_inv (sentences concepts : List PyStr) (r : Nat → AttemptRand) :
    ∀ (fuel : Nat) (qs : List Question), (∀ q ∈ qs, quizInv q) →
      ∀ q ∈ quizLoop sentences concepts r fuel qs, quizInv q := by
  intro fuel
  induction fuel with
  | zero =>
    intro qs h q hq
    rw [quizLoop] at hq
    exact h q hq
  | succ n ih =>
    intro qs h q hq
    rw [quizLoop] at hq
    split at hq
    · refine ih _ ?_ q hq
      intro q' hq'
      split at hq'
      · split at hq'
        · split at hq'
          · exact h q' hq'
          · rw [List.mem_append] at hq'
            cases hq' with
            | inl hin => exact h q' hin
            | inr hone =>
              simp at hone
              rw [hone]
              exact mcq_quizInv _ _ _ _ (by assumption)
        · exact h q' hq'
      · exact h q' hq'
    · exact h q hq

lemma quizLoop_len (sentences concepts : List PyStr) (r : Nat → AttemptRand) :
    ∀ (fuel : Nat) (qs : List Question), qs.length ≤ 3 →
      (quizLoop sentences concepts r fuel qs).length ≤ 3 := by
  intro fuel
  induction fuel with
  | zero =>
    intro qs h
    rw [quizLoop]
    exact h
  | succ n ih =>
    intro qs h
    rw [quizLoop]
    split
    · refine ih _ ?_
      split
      · split
        · split
          · exact h
          · rw [List.length_append, List.length_singleton]
            omega
        · exact h
      · exact h
    · exact h

lemma fillGeneric_inv (concepts : List PyStr) (g : Nat → Nat) :
    ∀ (fuel : Nat) (qs : List Question), (∀ q ∈ qs, quizInv q) →
      ∀ q ∈ fillGeneric concepts g fuel qs, quizInv q := by
  intro fuel
  induction fuel with
  | zero =>
    intro qs h q hq
    rw [fillGeneric] at hq
    exact h q hq
  | succ n ih =>
    intro qs h q hq
    rw [fillGeneric] at hq
    split at hq
    · refine ih _ ?_ q hq
      intro q' hq'
      rw [List.mem_append] at hq'
      cases hq' with
      | inl hin => exact h q' hin
      | inr hone =>
        simp at hone
        rw [hone]
        exact generic_quizInv concepts _ _
    · exact h q hq

lemma fillGeneric_len (concepts : List PyStr) (g : Nat → Nat) :
    ∀ (fuel : Nat) (qs : List Question), qs.length ≤ 3 → 3 ≤ fuel + qs.length →
      (fillGeneric concepts g fuel qs).length = 3 := by
  intro fuel
  induction fuel with
  | zero =>
    intro qs h1 h2
    rw [fillGeneric]
    omega
  | succ n ih =>
    intro qs h1 h2
    rw [fillGeneric]
    split
    · refine ih _ ?_ ?_ <;> rw [List.length_append] <;> simp <;> omega
    · omega

/-- C4: the quiz synthesizer is total (embedded with the exact attempt
budget `2 × pool_size` of the source, 0 when the sentence pool is empty)
and returns exactly 3 question records for every input and every random
draw. -/
theorem c4_quiz_count (text : PyStr) (concepts : List PyStr)
    (r : Nat → AttemptRand) (g : Nat → Nat) :
    (generate_quiz_questions text concepts r g).length = 3 := by
  unfold generate_quiz_questions
  refine fillGeneric_len concepts g 3 _ ?_ ?_
  · exact quizLoop_len _ _ _ _ [] (by simp)
  · omega

/-- C1: every question produced by the quiz synthesizer — whether by the
per-sentence builder or by the generic fallback — has exactly 4 options,
a `correct_answer` letter among `A`–`D`, and the option at that letter's
position (`A` = 0, …) equal to `correct_text`. -/
theorem c1_question_invariant :
    (∀ (s : PyStr) (c : List PyStr) (r : McqRand) (q : Question),
        create_multiple_choice_question s c r = some q → quizInv q) ∧
    (∀ (c : List PyStr) (r i : Nat), quizInv (create_generic_question c r i)) ∧
    (∀ (text : PyStr) (concepts : List PyStr) (r : Nat → AttemptRand) (g : Nat → Nat)
        (q : Question), q ∈ generate_quiz_questions text concepts r g → quizInv q) := by
  refine ⟨mcq_quizInv, generic_quizInv, ?_⟩
  intro text concepts r g q hq
  unfold generate_quiz_questions at hq
  refine fillGeneric_inv concepts g 3 _ ?_ q hq
  exact quizLoop_inv _ _ _ _ [] (by simp)

/-- Witness for C1: the builder run on a concrete sentence yields a record
satisfying the invariant. -/
theorem c1_question_invariant_witness :
    quizInv { question := "______ world program today".data,
              options := ["Hello".data, "Not hello".data,
                          "Opposite of hello".data, "None of the above".data],
              correct_answer := 'A', correct_text := "Hello".data } :=
  c1_question_invariant.1 "Hello world program today".data [] ⟨0, 0, 0⟩ _ (by decide)

lemma mem_dedupAux {α : Type} [DecidableEq α] (x : α) :
    ∀ (l seen : List α), x ∈ dedupAux seen l → x ∈ l := by
  intro l
  induction l with
  | nil => intro seen h; simp [dedupAux] at h
  | cons a as ih =>
    intro seen h
    rw [dedupAux] at h
    split at h
    · exact List.mem_cons_of_mem a (ih _ h)
    · cases List.mem_cons.1 h with
      | inl he => rw [he]; exact List.mem_cons_self a as
      | inr hm => exact List.mem_cons_of_mem a (ih _ hm)

/-- C5: the distractor generator returns exactly 3 strings for every
answer and concept list; its output is exactly the up-to-2 earliest
concepts whose lowercase form differs from the answer's (in concept
order) followed by the generic templated entries
`"Not {answer}"`, `"Opposite of {answer}"`, `"None of the above"`
filling the remaining slots; on the Elephant example the output is
exactly `["Savanna", "Migration", "Not elephant"]`, so it contains
"Savanna" and "Migration" and has 3 entries. -/
theorem c5_distractors :
    (∀ (ca : PyStr) (concepts : List PyStr),
        (generate_distractors ca concepts).length = 3 ∧
        generate_distractors ca concepts =
          (concepts.filter (fun c => lowerL c ≠ lowerL ca)).take 2 ++
            (["Not ".data ++ lowerL ca, "Opposite of ".data ++ lowerL ca,
              "None of the above".data]).take
              (3 - ((concepts.filter (fun c => lowerL c ≠ lowerL ca)).take 2).length)) ∧
    (generate_distractors "Elephant".data
        ["Elephant".data, "Savanna".data, "Migration".data] =
      ["Savanna".data, "Migration".data, "Not elephant".data] ∧
     "Savanna".data ∈ generate_distractors "Elephant".data
        ["Elephant".data, "Savanna".data, "Migration".data] ∧
     "Migration".data ∈ generate_distractors "Elephant".data
        ["Elephant".data, "Savanna".data, "Migration".data] ∧
     (generate_distractors "Elephant".data
        ["Elephant".data, "Savanna".data, "Migration".data]).length = 3) := by
  refine ⟨?_, by decide, by decide, by decide, length_generate_distractors _ _⟩
  intro ca concepts
  refine ⟨length_generate_distractors ca concepts, ?_⟩
  unfold generate_distractors
  rw [List.take_append_eq_append_take]
  rw [List.take_of_length_le]
  exact Nat.le_trans (List.length_take_le 2 _) (by omega)

lemma extract_mem_length (text : PyStr) :
    ∀ w ∈ extract_key_concepts text, 3 < w.length := by
  intro w hw
  simp only [extract_key_concepts] at hw
  have hw2 := mem_dedupAux w _ _ (List.mem_of_mem_take hw)
  cases List.mem_append.1 hw2 with
  | inl hcap =>
    have := List.mem_filter.1 hcap
    have := List.mem_filter.1 this.1
    have h3 := this.2
    simp at h3
    exact h3
  | inr hfreq =>
    have hf := List.mem_of_mem_take hfreq
    obtain ⟨kv, hkv, hkvw⟩ := List.mem_map.1 hf
    have := (List.mem_filter.1 hkv).2
    simp at this
    rw [← hkvw]
    omega

/-- C6: the concept extractor returns at most 10 concepts, each of length
strictly greater than 3, and the empty input yields the empty list. -/
theorem c6_concepts :
    (∀ text : PyStr, (extract_key_concepts text).length ≤ 10 ∧
        ∀ w ∈ extract_key_concepts text, 3 < w.length) ∧
    extract_key_concepts [] = [] := by
  refine ⟨?_, rfl⟩
  intro text
  refine ⟨?_, extract_mem_length text⟩
  simp only [extract_key_concepts]
  exact List.length_take_le 10 _

/-- Witness for C6: a concrete input whose extractor output contains the
concept "Python", which indeed has length above 3. -/
theorem c6_concepts_witness :
    (extract_key_concepts "Python Python systems".data).length ≤ 10 ∧
    3 < "Python".data.length :=
  ⟨(c6_concepts.1 "Python Python systems".data).1,
   (c6_concepts.1 "Python Python systems".data).2 "Python".data (by decide)⟩

lemma asg1Template_ne_nil (st c : PyStr) : asg1Template st c ≠ [] := by
  unfold asg1Template
  intro h
  simp only [List.append_eq_nil] at h
  exact absurd h.2 (by decide)

lemma asg2Template_ne_nil (c1 c2 : PyStr) : asg2Template c1 c2 ≠ [] := by
  unfold asg2Template
  intro h
  simp only [List.append_eq_nil] at h
  exact absurd h.2 (by decide)

/-- C8: the assignment synthesizer returns exactly 2 non-empty strings for
every concept list and every random draw, and when the concept list has
at least 2 entries the second assignment is the compare-and-contrast
template applied to two concepts at distinct positions (sampling without
replacement). -/
theorem c8_assignments (text : PyStr) (concepts : List PyStr) (rnd : AsgRand) :
    (generate_assignments text concepts rnd).length = 2 ∧
    (∀ s ∈ generate_assignments text concepts rnd, s ≠ []) ∧
    (2 ≤ concepts.length →
      ∃ i j, i < concepts.length ∧ j < concepts.length ∧ i ≠ j ∧
        (generate_assignments text concepts rnd).getD 1 [] =
          asg2Template (concepts.getD i []) (concepts.getD j [])) := by
  refine ⟨rfl, ?_, ?_⟩
  · intro s hs
    simp only [generate_assignments, List.mem_cons, List.not_mem_nil, or_false] at hs
    cases hs with
    | inl h1 =>
      rw [h1]
      split
      · exact asg1Template_ne_nil _ _
      · exact (by decide : asg1Fallback ≠ [])
    | inr h2 =>
      rw [h2]
      split
      · exact asg2Template_ne_nil _ _
      · exact (by decide : asg2Fallback ≠ [])
  · intro h2
    have hn : 0 < concepts.length := by omega
    have hn1 : 0 < concepts.length - 1 := by omega
    have hi : rnd.p1 % concepts.length < concepts.length := Nat.mod_lt _ hn
    have hj0 : rnd.p2 % (concepts.length - 1) < concepts.length - 1 := Nat.mod_lt _ hn1
    refine ⟨rnd.p1 % concepts.length,
      (if rnd.p2 % (concepts.length - 1) < rnd.p1 % concepts.length then
        rnd.p2 % (concepts.length - 1) else rnd.p2 % (concepts.length - 1) + 1),
      hi, ?_, ?_, ?_⟩
    · split <;> omega
    · split <;> omega
    · simp only [generate_assignments, pySample2, List.getD_cons_succ, List.getD_cons_zero]
      rw [if_pos h2]

/-- Witness for C8: on a concrete two-concept list the first assignment is
non-empty and the second names two distinct concept positions. -/
theorem c8_assignments_witness :
    (generate_assignments [] ["Alpha".data, "Beta".data] ⟨0, 0, 0, 0⟩).getD 0 [] ≠ [] ∧
    (∃ i j, i < 2 ∧ j < 2 ∧ i ≠ j ∧
      (generate_assignments [] ["Alpha".data, "Beta".data] ⟨0, 0, 0, 0⟩).getD 1 [] =
        asg2Template (["Alpha".data, "Beta".data].getD i [])
          (["Alpha".data, "Beta".data].getD j [])) :=
  ⟨(c8_assignments [] ["Alpha".data, "Beta".data] ⟨0, 0, 0, 0⟩).2.1 _ (by decide),
   (c8_assignments [] ["Alpha".data, "Beta".data] ⟨0, 0, 0, 0⟩).2.2 (by decide)⟩

lemma clean_text_of_all_space (s : PyStr) (h : s.all isPySpace = true) :
    clean_text s = [] := by
  have hall : ∀ c ∈ s, isPySpace c = true := by
    intro c hc
    exact List.all_eq_true.1 h c hc
  have hdrop : s.dropWhile isPySpace = [] := List.dropWhile_eq_nil_iff.2 hall
  unfold clean_text pyStrip pyStripP dropLead dropTrail
  rw [hdrop]
  rfl

lemma generate_content_of_clean_nil (s : PyStr) (rnd : GenRand)
    (h : clean_text s = []) : generate_content s rnd = emptyFallbackResult := by
  unfold generate_content
  rw [h]
  rfl

/-- C2: on the empty input, `generate_content` returns exactly the two
fixed fallback assignments, three generic fallback questions (each with
`correct_answer = 'A'`) and an empty concept list, for every random draw;
and every whitespace-only input produces the same complete result (the
embedding is total, so nothing can be raised). -/
theorem c2_generate_content_empty :
    (∀ rnd : GenRand, generate_content [] rnd = emptyFallbackResult) ∧
    (∀ (s : PyStr) (rnd : GenRand), s.all isPySpace = true →
      generate_content s rnd = emptyFallbackResult) := by
  constructor
  · intro rnd
    exact generate_content_of_clean_nil [] rnd rfl
  · intro s rnd h
    exact generate_content_of_clean_nil s rnd (clean_text_of_all_space s h)

/-- Witness for C2: a concrete whitespace-only input yields the fallback
result. -/
theorem c2_generate_content_empty_witness :
    generate_content " \t\n ".data
      ⟨⟨0, 0, 0, 0⟩, (fun _ => ⟨0, ⟨0, 0, 0⟩⟩), (fun _ => 0)⟩ = emptyFallbackResult :=
  c2_generate_content_empty.2 " \t\n ".data
    ⟨⟨0, 0, 0, 0⟩, (fun _ => ⟨0, ⟨0, 0, 0⟩⟩), (fun _ => 0)⟩ (by decide)

lemma begWith_append (a b : PyStr) : begWith a (a ++ b) = true := by
  induction a with
  | nil => rfl
  | cons x xs ih => simp [begWith, ih]

lemma hasSub_of_begWith (pat s : PyStr) (h : begWith pat s = true) :
    hasSub pat s = true := by
  cases s with
  | nil => rw [hasSub]; exact h
  | cons c rest => rw [hasSub, h, Bool.true_or]

lemma SubSeg_nil_elim (t : PyStr) (h : SubSeg t []) : t = [] := by
  obtain ⟨a, b, hab⟩ := h
  have := hab.symm
  rw [List.append_eq_nil, List.append_eq_nil] at this
  exact this.1.2

lemma SubSeg_cons_right (t : PyStr) (c : Char) (y : PyStr) (h : SubSeg t y) :
    SubSeg t (c :: y) := by
  obtain ⟨a, b, hab⟩ := h
  exact ⟨c :: a, b, by rw [hab]; rfl⟩

lemma SubSeg_append_left (t x y : PyStr) (h : SubSeg t y) : SubSeg t (x ++ y) := by
  obtain ⟨a, b, hab⟩ := h
  exact ⟨x ++ a, b, by rw [hab]; simp [List.append_assoc]⟩

lemma SubSeg_trans (u v w : PyStr) (h1 : SubSeg u v) (h2 : SubSeg v w) : SubSeg u w := by
  obtain ⟨a1, b1, hv⟩ := h1
  obtain ⟨a2, b2, hw⟩ := h2
  exact ⟨a2 ++ a1, b1 ++ b2, by rw [hw, hv]; simp [List.append_assoc]⟩

lemma hasSub_of_SubSeg (pat : PyStr) : ∀ (s : PyStr), SubSeg pat s → hasSub pat s = true := by
  intro s
  induction s with
  | nil =>
    intro h
    rw [SubSeg_nil_elim pat h]
    rfl
  | cons c rest ih =>
    intro h
    obtain ⟨a, b, hab⟩ := h
    cases a with
    | nil =>
      apply hasSub_of_begWith
      rw [hab]
      exact begWith_append pat b
    | cons x a' =>
      simp only [List.cons_append] at hab
      rw [List.cons.injEq] at hab
      have hr : hasSub pat rest = true := ih ⟨a', b, hab.2⟩
      rw [hasSub, hr, Bool.or_true]

lemma SubSeg_cons_elim (t : PyStr) (c : Char) (rest : PyStr)
    (h : SubSeg t (c :: rest)) (hb : ¬ begWith t (c :: rest) = true) : SubSeg t rest := by
  obtain ⟨a, b, hab⟩ := h
  cases a with
  | nil =>
    exfalso
    apply hb
    rw [hab]
    exact begWith_append t b
  | cons x a' =>
    simp only [List.cons_append] at hab
    rw [List.cons.injEq] at hab
    exact ⟨a', b, hab.2⟩

lemma SubSeg_new_replFuel (old new : PyStr) (hold : old ≠ []) :
    ∀ (fuel : Nat) (s : PyStr), s.length ≤ fuel → SubSeg old s →
      SubSeg new (replFuel old new fuel s) := by
  intro fuel
  induction fuel with
  | zero =>
    intro s hs hsub
    have hnil : s = [] := List.length_eq_zero.1 (Nat.le_zero.1 hs)
    rw [hnil] at hsub
    exact absurd (SubSeg_nil_elim old hsub) hold
  | succ n ih =>
    intro s hs hsub
    cases s with
    | nil => exact absurd (SubSeg_nil_elim old hsub) hold
    | cons c rest =>
      rw [replFuel]
      by_cases hb : begWith old (c :: rest) = true
      · rw [if_pos hb]
        exact ⟨[], replFuel old new n ((c :: rest).drop old.length), rfl⟩
      · rw [if_neg hb]
        have hrest : SubSeg old rest := SubSeg_cons_elim old c rest hsub hb
        have hlen : rest.length ≤ n := by
          rw [List.length_cons] at hs
          omega
        exact SubSeg_cons_right new c _ (ih rest hlen hrest)

lemma pyStripP_SubSeg (p : Char → Bool) (w : PyStr) : SubSeg (pyStripP p w) w := by
  have h := dropTrail_append p (dropLead p w)
  refine ⟨List.takeWhile p w, ((dropLead p w).reverse.takeWhile p).reverse, ?_⟩
  conv_lhs => rw [← List.takeWhile_append_dropWhile p w]
  rw [List.append_assoc]
  congr 1

lemma runsOfAux_SubSeg (p : Char → Bool) :
    ∀ (l cur w : PyStr), w ∈ runsOfAux p cur l → SubSeg w (cur.reverse ++ l) := by
  intro l
  induction l with
  | nil =>
    intro cur w hw
    rw [runsOfAux] at hw
    split at hw
    · cases hw
    · simp at hw
      rw [hw]
      exact ⟨[], [], by simp⟩
  | cons c rest ih =>
    intro cur w hw
    rw [runsOfAux] at hw
    split at hw
    · have := ih (c :: cur) w hw
      rw [List.reverse_cons, List.append_assoc] at this
      simpa using this
    · split at hw
      · rename_i hcur
        rw [List.isEmpty_iff.1 hcur]
        have := ih [] w hw
        simp at this
        exact SubSeg_cons_right w c rest this
      · cases List.mem_cons.1 hw with
        | inl he =>
          rw [he]
          exact ⟨[], c :: rest, by simp⟩
        | inr hm =>
          have := ih [] w hm
          simp at this
          exact SubSeg_append_left w cur.reverse _ (SubSeg_cons_right w c rest this)

lemma runsOf_SubSeg (p : Char → Bool) (s w : PyStr) (h : w ∈ runsOf p s) : SubSeg w s := by
  have := runsOfAux_SubSeg p s [] w h
  simpa using this

lemma hasSub_marker_pyReplace (sentence ca : PyStr) (h : SubSeg ca sentence) :
    hasSub blankMarker (pyReplace sentence ca blankMarker) = true := by
  by_cases hca : ca = []
  · rw [hca]
    unfold pyReplace
    rw [if_pos rfl]
    exact hasSub_of_begWith _ _ (begWith_append blankMarker _)
  · unfold pyReplace
    rw [if_neg hca]
    exact hasSub_of_SubSeg _ _
      (SubSeg_new_replFuel ca blankMarker hca sentence.length sentence (Nat.le_refl _) h)

/-- C9: the templated fallback branch of the per-sentence builder is
unreachable — every returned question's text contains the blank marker,
because the stripped answer candidate is always a contiguous substring of
the sentence (or empty, in which case the replacement still inserts the
marker). -/
theorem c9_marker_always_present (s : PyStr) (concepts : List PyStr) (rnd : McqRand)
    (q : Question) (h : create_multiple_choice_question s concepts rnd = some q) :
    hasSub blankMarker q.question = true := by
  simp only [create_multiple_choice_question] at h
  split at h
  · cases h
  · split at h
    · cases h
    · rename_i hsent hcand
      rw [Option.some.injEq] at h
      have hchoice : pyChoice ((pySplitWS (pyStrip s)).filter
          (fun w => 4 < w.length && !(mcConnectives.contains (lowerL w)))) rnd.ans [] ∈
          (pySplitWS (pyStrip s)).filter
            (fun w => 4 < w.length && !(mcConnectives.contains (lowerL w))) :=
        pyChoice_mem _ _ _ hcand
      have hsubseg : SubSeg (pyStripP isAnsPunct (pyChoice ((pySplitWS (pyStrip s)).filter
          (fun w => 4 < w.length && !(mcConnectives.contains (lowerL w)))) rnd.ans []))
          (pyStrip s) :=
        SubSeg_trans _ _ _ (pyStripP_SubSeg isAnsPunct _)
          (runsOf_SubSeg _ _ _ (List.mem_of_mem_filter hchoice))
      have hsub := hasSub_marker_pyReplace (pyStrip s) _ hsubseg
      rw [hsub] at h
      simp only [Bool.not_true, Bool.false_eq_true, if_false] at h
      rw [← h]
      exact hsub

/-- Witness for C9: on a concrete sentence the returned question text
contains the blank marker. -/
theorem c9_marker_always_present_witness :
    hasSub blankMarker
      { question := "Sunny meadow ______ bloom".data,
        options := ["Opposite of flowers".data, "flowers".data,
                    "Not flowers".data, "None of the above".data],
        correct_answer := 'B', correct_text := "flowers".data : Question }.question = true :=
  c9_marker_always_present "Sunny meadow flowers bloom".data [] ⟨2, 0, 5⟩ _ (by decide)

/-- C3 counterexample: for the sentence "apple apple apple sauce!" (first
candidate chosen), the built question text is not the spec-worded
first-occurrence-only replacement — it is the replace-all result, with
every occurrence of "apple" blanked. -/
theorem c3_counterexample :
    (create_multiple_choice_question "apple apple apple sauce!".data [] ⟨0, 0, 0⟩).map
        Question.question ≠
      some (specReplaceFirst (pyStrip "apple apple apple sauce!".data)
        "apple".data blankMarker) ∧
    (create_multiple_choice_question "apple apple apple sauce!".data [] ⟨0, 0, 0⟩).map
        Question.question =
      some (pyReplace (pyStrip "apple apple apple sauce!".data)
        "apple".data blankMarker) ∧
    specReplaceFirst (pyStrip "apple apple apple sauce!".data) "apple".data blankMarker =
      "______ apple apple sauce!".data ∧
    pyReplace (pyStrip "apple apple apple sauce!".data) "apple".data blankMarker =
      "______ ______ ______ sauce!".data := by
  refine ⟨by decide, by decide, by decide, by decide⟩

/-- C3 as amended: the question text is built with Python `str.replace`,
which substitutes the blank marker for every non-overlapping occurrence
of `correct_answer` left to right, not only for the first one (the
templated fallback shape is the only other possibility for the field). -/
theorem c3_amended_replace_all (s : PyStr) (concepts : List PyStr) (rnd : McqRand)
    (q : Question) (h : create_multiple_choice_question s concepts rnd = some q) :
    q.question = pyReplace (pyStrip s) q.correct_text blankMarker ∨
    q.question = mcFallbackText (pyChoice mc_starters rnd.st []) (pyStrip s) := by
  simp only [create_multiple_choice_question] at h
  split at h
  · cases h
  · split at h
    · cases h
    · rw [Option.some.injEq] at h
      rw [← h]
      dsimp only
      by_cases hc : hasSub blankMarker (pyReplace (pyStrip s)
          (pyStripP isAnsPunct (pyChoice ((pySplitWS (pyStrip s)).filter
            (fun w => 4 < w.length && !(mcConnectives.contains (lowerL w)))) rnd.ans []))
          blankMarker) = true
      · left
        rw [hc]
        rfl
      · right
        rw [Bool.of_not_eq_true hc]
        rfl

/-- Witness for the amended C3: on the concrete three-occurrence sentence
the returned question field equals the replace-all text. -/
theorem c3_amended_replace_all_witness :
    ({ question := "______ ______ ______ sauce!".data,
       options := ["apple".data, "Not apple".data,
                   "Opposite of apple".data, "None of the above".data],
       correct_answer := 'A', correct_text := "apple".data : Question }).question =
      pyReplace (pyStrip "apple apple apple sauce!".data)
        ({ question := "______ ______ ______ sauce!".data,
           options := ["apple".data, "Not apple".data,
                       "Opposite of apple".data, "None of the above".data],
           correct_answer := 'A', correct_text := "apple".data : Question }).correct_text
        blankMarker ∨
    ({ question := "______ ______ ______ sauce!".data,
       options := ["apple".data, "Not apple".data,
                   "Opposite of apple".data, "None of the above".data],
       correct_answer := 'A', correct_text := "apple".data : Question }).question =
      mcFallbackText (pyChoice mc_starters 0 []) (pyStrip "apple apple apple sauce!".data) :=
  c3_amended_replace_all "apple apple apple sauce!".data [] ⟨0, 0, 0⟩ _ (by decide)

/-- C10: the `len > 4` candidate filter precedes the `.,!?` stripping, so
`correct_text` can be shorter than 5 characters and even empty: a sentence
whose only long token is all punctuation yields an empty `correct_text`,
and a 5-character token ending in a period yields a 4-character one. -/
theorem c10_short_correct_text :
    (create_multiple_choice_question "...... hi yo".data [] ⟨0, 0, 0⟩).map
        Question.correct_text = some [] ∧
    (create_multiple_choice_question "quick best. pace".data [] ⟨1, 0, 0⟩).map
        (fun q => q.correct_text.length) = some 4 := by
  refine ⟨by decide, by decide⟩
